import Mathlib

/-!
Verification of the relevance-ranking and content-scoring pipeline of the
newsletter generator: keyword extraction, categorization, sentiment scoring,
extractive summarization, per-reader relevance computation, newsletter
selection, and dictionary serialization.

The Python source is shallowly embedded: floats become `ℚ`, Python lists and
sets become Lean lists, Python dicts become association lists, and string
operations are modelled over `String`/`List Char`.  External NLTK facilities
(word tokenizer, WordNet lemmatizer, stopword corpus) are not part of the
repository; they are modelled from the spec (the tokenizer) or kept as
parameters (the lemmatizer, the stopword set).
-/

/-! ## Definitions: the shallow embedding of the pipeline -/

/-- ASCII lower-casing of one character, modelling Python `str.lower` per char. -/
def lowerChar (c : Char) : Char :=
  match c with
  | 'A' => 'a' | 'B' => 'b' | 'C' => 'c' | 'D' => 'd' | 'E' => 'e' | 'F' => 'f'
  | 'G' => 'g' | 'H' => 'h' | 'I' => 'i' | 'J' => 'j' | 'K' => 'k' | 'L' => 'l'
  | 'M' => 'm' | 'N' => 'n' | 'O' => 'o' | 'P' => 'p' | 'Q' => 'q' | 'R' => 'r'
  | 'S' => 's' | 'T' => 't' | 'U' => 'u' | 'V' => 'v' | 'W' => 'w' | 'X' => 'x'
  | 'Y' => 'y' | 'Z' => 'z'
  | c => c

/-- Python `s.lower()` (ASCII model). -/
def pyLower (s : String) : String := String.mk (s.data.map lowerChar)

/-- `hasSub hay needle` is Python `needle in hay` on strings: contiguous
substring containment (the empty needle is contained in everything). -/
def hasSub : List Char → List Char → Bool
  | hay, needle =>
    if needle.isPrefixOf hay then true
    else
      match hay with
      | [] => false
      | _ :: t => hasSub t needle

/-- Python `needle in hay` for strings. -/
def pyIn (needle hay : String) : Bool := hasSub hay.data needle.data

/-- `User` dataclass from `models/user.py`. -/
structure User where
  id : String
  name : String
  email : String
  interests : List String := []
  preferred_sources : List String := []
  content_weights : List (String × ℚ) := []
  newsletter_frequency : String := "daily"
  max_articles_per_newsletter : ℕ := 10
  preferred_categories : List String := []
  excluded_keywords : List String := []
  language : String := "en"
  location : Option String := none
  persona : Option String := none
deriving DecidableEq

/-- Number of article keywords that substring-match (case-insensitively) some
interest of the user; the `interest_match` count in `User.matches_article`. -/
def interest_match_count (u : User) (article_keywords : List String) : ℕ :=
  article_keywords.countP (fun keyword =>
    u.interests.any (fun interest => pyIn (pyLower interest) (pyLower keyword)))

/-- The interest-overlap term of the relevance score:
`min(interest_match / len(interests), 1.0) * 1.5` when the count is positive,
`0` otherwise. -/
def interest_term (u : User) (article_keywords : List String) : ℚ :=
  if 0 < interest_match_count u article_keywords then
    min ((interest_match_count u article_keywords : ℚ) / (u.interests.length : ℚ)) 1 * (3 / 2)
  else 0

/-- Number of article keywords that substring-match (case-insensitively) some
excluded keyword of the user; the `excluded_match` count. -/
def excluded_match_count (u : User) (article_keywords : List String) : ℕ :=
  article_keywords.countP (fun keyword =>
    u.excluded_keywords.any (fun excluded => pyIn (pyLower excluded) (pyLower keyword)))

/-- The excluded-keyword penalty: `min(excluded_match, 1.0) * 0.5` when the
count is positive, `0` otherwise. -/
def excluded_term (u : User) (article_keywords : List String) : ℚ :=
  if 0 < excluded_match_count u article_keywords then
    min (excluded_match_count u article_keywords : ℚ) 1 * (1 / 2)
  else 0

/-- `User.matches_article`: relevance of an article for this user, normalized
by the maximum possible score `4.0` and clamped to `[0, 1]`. -/
def matches_article (u : User) (article_keywords : List String)
    (source category : String) : ℚ :=
  let score : ℚ :=
    (if source ∈ u.preferred_sources then 1 else 0)
    + (if category ∈ u.preferred_categories then 1 else 0)
    + interest_term u article_keywords
    - excluded_term u article_keywords
  max 0 (min (score / 4) 1)

/-- The category list after `"technology"`, in the definition order of
`ArticleProcessor.__init__`. -/
def other_categories : List String :=
  ["business", "politics", "entertainment", "health", "science", "sports",
   "world", "general"]

/-- The default category list of `ArticleProcessor.__init__`, in order. -/
def default_categories : List String := "technology" :: other_categories

/-- The category lexicon table of `_initialize_category_keywords`, in
definition order. -/
def category_keywords : List (String × List String) :=
  [("technology",
    ["tech", "technology", "ai", "artificial", "intelligence", "software",
     "app", "application", "computer", "digital", "internet", "web",
     "cyber", "security", "data", "analytics", "cloud", "blockchain",
     "programming", "algorithm", "mobile", "smartphone", "device",
     "hardware", "robot", "automation", "startup", "innovation",
     "computing", "virtual", "augmented", "reality"]),
   ("business",
    ["business", "company", "corporation", "market", "stock", "finance",
     "economy", "economic", "investment", "investor", "profit", "revenue",
     "startup", "entrepreneur", "ceo", "executive", "management", "strategy",
     "acquisition", "merger", "venture", "capital", "funding", "growth",
     "industry", "sector", "commercial", "trade", "banking", "financial"]),
   ("politics",
    ["politics", "political", "government", "election", "campaign", "vote",
     "voter", "president", "congress", "senate", "house", "representative",
     "democrat", "republican", "liberal", "conservative", "policy", "law",
     "legislation", "regulation", "parliament", "minister", "cabinet",
     "leader", "party", "candidate", "bill", "diplomat", "foreign", "nation"]),
   ("entertainment",
    ["entertainment", "movie", "film", "cinema", "actor", "actress", "star",
     "celebrity", "music", "song", "album", "concert", "perform", "singer",
     "band", "television", "tv", "show", "series", "episode", "streaming",
     "award", "festival", "director", "producer", "studio", "hollywood",
     "game", "gaming", "theater", "stage", "comedy", "drama"]),
   ("health",
    ["health", "medical", "medicine", "doctor", "hospital", "patient",
     "disease", "condition", "treatment", "therapy", "drug", "research",
     "study", "scientist", "healthcare", "mental", "physical", "fitness",
     "exercise", "diet", "nutrition", "wellness", "healthy", "vaccine",
     "virus", "pandemic", "epidemic", "public", "emergency", "care"]),
   ("science",
    ["science", "scientific", "research", "study", "discovery", "scientist",
     "experiment", "laboratory", "theory", "hypothesis", "physics", "chemistry",
     "biology", "astronomy", "space", "planet", "star", "galaxy", "universe",
     "climate", "environment", "energy", "renewable", "sustainable", "species",
     "evolution", "genetic", "dna", "molecule", "atom", "particle"]),
   ("sports",
    ["sport", "sports", "game", "match", "player", "team", "coach", "league",
     "championship", "tournament", "competition", "athlete", "olympic", "medal",
     "football", "soccer", "baseball", "basketball", "tennis", "golf", "racing",
     "formula", "hockey", "rugby", "cricket", "boxing", "swimming", "track",
     "field", "fitness", "stadium", "fan", "victory", "defeat"]),
   ("world",
    ["world", "international", "global", "foreign", "country", "nation",
     "war", "conflict", "peace", "military", "army", "troops", "treaty",
     "agreement", "diplomat", "embassy", "ambassador", "border", "refugee",
     "immigration", "trade", "sanction", "united", "nations", "europe",
     "asia", "africa", "america", "middle", "east", "crisis"]),
   ("general",
    ["news", "report", "update", "information", "event", "development",
     "situation", "issue", "matter", "topic", "story", "article", "coverage",
     "press", "media", "daily", "weekly", "monthly", "latest", "breaking",
     "current", "today", "yesterday", "tomorrow", "week", "month", "year"])]

/-- Score of one category in `categorize_article`: the number of the
document's keywords that appear verbatim in that category's lexicon. -/
def category_score (keywords : List String) (category : String) : ℕ :=
  keywords.countP (fun keyword =>
    ((category_keywords.lookup category).getD []).contains keyword)

/-- Python's `max(items, key=f)`: the first element attaining the maximal key,
folded over `a :: l`. -/
def pyMaxKey {α : Type} (f : α → ℕ) : α → List α → α
  | a, [] => a
  | a, b :: l => if f a < f b then pyMaxKey f b l else pyMaxKey f a l

/-- `ArticleProcessor.categorize_article`: keyword-overlap scores per category
(in definition order); `"general"` when the maximum score is zero, otherwise
the first category attaining the maximal score. -/
def categorize_article (keywords : List String) : String :=
  if (default_categories.map (category_score keywords)).foldr max 0 = 0 then
    "general"
  else
    pyMaxKey (category_score keywords) "technology" other_categories

/-- ASCII whitespace, modelling `\s` of the regexes and `str` splitting. -/
def isSpaceChar (c : Char) : Bool :=
  c = ' ' || c = '\t' || c = '\n' || c = '\r'

/-- Modelled from the spec: NLTK `word_tokenize`, which is external to the
repository, "tokenizes, lowercases, strips ... split on token boundaries".
Tokens are maximal alphabetic runs, maximal digit runs, and single other
non-space characters; whitespace separates tokens.  The running state is the
current alphabetic (`true`) or digit (`false`) run, reversed. -/
def tokGo : List Char → Option (Bool × List Char) → List (List Char)
  | [], none => []
  | [], some p => [p.2.reverse]
  | c :: rest, some (isAl, acc) =>
    if (isAl && c.isAlpha) || (!isAl && c.isDigit) then
      tokGo rest (some (isAl, c :: acc))
    else
      acc.reverse ::
        (if c.isAlpha then tokGo rest (some (true, [c]))
         else if c.isDigit then tokGo rest (some (false, [c]))
         else if isSpaceChar c then tokGo rest none
         else [c] :: tokGo rest none)
  | c :: rest, none =>
    if c.isAlpha then tokGo rest (some (true, [c]))
    else if c.isDigit then tokGo rest (some (false, [c]))
    else if isSpaceChar c then tokGo rest none
    else [c] :: tokGo rest none

/-- Modelled from the spec: NLTK `word_tokenize` on a string. -/
def word_tokenize (s : String) : List String :=
  (tokGo s.data none).map String.mk

/-- Python `str.isalpha` (ASCII model): nonempty and all alphabetic. -/
def pyIsAlpha (s : String) : Bool := !s.data.isEmpty && s.data.all Char.isAlpha

/-- Python `str.isdigit` (ASCII model): nonempty and all digits. -/
def pyIsDigit (s : String) : Bool := !s.data.isEmpty && s.data.all Char.isDigit

/-- The fixed positive-word set of `ArticleProcessor.analyze_sentiment`. -/
def positive_words : List String :=
  ["good", "great", "excellent", "positive", "amazing", "wonderful",
   "fantastic", "terrific", "outstanding", "superb", "brilliant",
   "success", "successful", "beneficial", "advantage", "innovative"]

/-- The fixed negative-word set of `ArticleProcessor.analyze_sentiment`. -/
def negative_words : List String :=
  ["bad", "terrible", "poor", "negative", "awful", "horrible",
   "disappointing", "failure", "failed", "problem", "disaster",
   "crisis", "dangerous", "threat", "risk", "concern"]

/-- The alphabetic words of the lower-cased text, as in
`analyze_sentiment`: `[token for token in tokens if token.isalpha()]`. -/
def sentiment_words (text : String) : List String :=
  (word_tokenize (pyLower text)).filter pyIsAlpha

/-- `pos_count` of `analyze_sentiment`. -/
def sentiment_pos_count (text : String) : ℕ :=
  (sentiment_words text).countP (fun w => positive_words.contains w)

/-- `neg_count` of `analyze_sentiment`. -/
def sentiment_neg_count (text : String) : ℕ :=
  (sentiment_words text).countP (fun w => negative_words.contains w)

/-- `ArticleProcessor.analyze_sentiment`: `0.0` when no lexicon word occurs,
otherwise `(pos_count - neg_count) / (pos_count + neg_count)`. -/
def analyze_sentiment (text : String) : ℚ :=
  let total := sentiment_pos_count text + sentiment_neg_count text
  if total = 0 then 0
  else ((sentiment_pos_count text : ℚ) - (sentiment_neg_count text : ℚ)) / (total : ℚ)

/-- The total order realizing Python's stable descending sort on an
enumerated list: strictly larger key first, and for equal keys the smaller
original position first.  A stable sort is exactly a sort by this order. -/
def descRel {α β : Type} [LinearOrder β] (key : α → β) (p q : ℕ × α) : Prop :=
  key q.2 < key p.2 ∨ (key p.2 = key q.2 ∧ p.1 ≤ q.1)

instance descRel.instDecidableRel {α β : Type} [LinearOrder β] (key : α → β) :
    DecidableRel (descRel key) := fun _ _ => by
  unfold descRel
  infer_instance

instance descRel.instIsTotal {α β : Type} [LinearOrder β] (key : α → β) :
    IsTotal (ℕ × α) (descRel key) := by
  refine ⟨fun p q => ?_⟩
  rcases lt_trichotomy (key p.2) (key q.2) with h | h | h
  · exact Or.inr (Or.inl h)
  · rcases Nat.le_total p.1 q.1 with h' | h'
    · exact Or.inl (Or.inr ⟨h, h'⟩)
    · exact Or.inr (Or.inr ⟨h.symm, h'⟩)
  · exact Or.inl (Or.inl h)

instance descRel.instIsTrans {α β : Type} [LinearOrder β] (key : α → β) :
    IsTrans (ℕ × α) (descRel key) := by
  refine ⟨fun p q r hpq hqr => ?_⟩
  rcases hpq with h1 | ⟨h1, h1'⟩ <;> rcases hqr with h2 | ⟨h2, h2'⟩
  · exact Or.inl (lt_trans h2 h1)
  · exact Or.inl (h2 ▸ h1)
  · exact Or.inl (h1 ▸ h2)
  · exact Or.inr ⟨h1.trans h2, h1'.trans h2'⟩

/-- The enumerated form of Python's stable descending sort by `key`. -/
def sortDescByEnum {α β : Type} [LinearOrder β] (key : α → β) (l : List α) :
    List (ℕ × α) :=
  (l.enum).insertionSort (descRel key)

/-- Python `sorted(l, key=key, reverse=True)` (a stable sort). -/
def sortDescBy {α β : Type} [LinearOrder β] (key : α → β) (l : List α) : List α :=
  (sortDescByEnum key l).map Prod.snd

/-- Python's `string.punctuation`. -/
def string_punctuation : String := "!\"#$%&'()*+,-./:;<=>?@[\\]^_`\x7b|\x7d~"

/-- The distinct elements of a list in first-occurrence order: the keys of a
Python `Counter` built from the list. -/
def counter_keys_aux (seen : List String) : List String → List String
  | [] => []
  | a :: t =>
    if seen.contains a then counter_keys_aux seen t
    else a :: counter_keys_aux (a :: seen) t

/-- Keys of `Counter(l)` in insertion order. -/
def counter_keys (l : List String) : List String := counter_keys_aux [] l

/-- `Counter(l).most_common(n)` keys: tokens with their counts, sorted by
count descending (stable, so insertion order breaks ties), truncated to `n`,
then projected to the tokens. -/
def most_common (n : ℕ) (l : List String) : List String :=
  ((sortDescBy Prod.snd ((counter_keys l).map (fun k => (k, l.count k)))).take n).map
    Prod.fst

/-- `ArticleProcessor.extract_keywords`: lower-case and tokenize, drop
stopwords, punctuation substrings, short tokens and digit tokens, lemmatize
the survivors, and keep the `max_count` most common lemmas.  The stopword set
and the lemmatizer are external NLTK data, passed as parameters. -/
def extract_keywords (stop : List String) (lemmatize : String → String)
    (min_length max_count : ℕ) (text : String) : List String :=
  most_common max_count
    (((word_tokenize (pyLower text)).filter (fun token =>
        !stop.contains token
        && !(hasSub string_punctuation.data token.data)
        && min_length ≤ token.length
        && !pyIsDigit token)).map lemmatize)

/-- A token that is neither a stopword, nor purely numeric, nor purely
punctuation. -/
def is_clean_token (stop : List String) (t : String) : Prop :=
  stop.contains t = false
  ∧ pyIsDigit t = false
  ∧ (!t.data.isEmpty && t.data.all (fun c => string_punctuation.data.contains c)) = false

def curInv : Option (Bool × List Char) → Prop
  | none => True
  | some (b, acc) => acc ≠ [] ∧ acc.all (if b then Char.isAlpha else Char.isDigit) = true

/-- Sentence-ending punctuation of the split regex `(?<=[.!?])\s+`. -/
def isSentEnd (c : Char) : Bool := c = '.' || c = '!' || c = '?'

/-- State machine for `re.split(r'(?<=[.!?])\s+', text)`: the Bool is true
while consuming a whitespace delimiter run, `acc` is the current segment
reversed.  A whitespace character splits exactly when the previous segment
character is sentence-ending punctuation; the whole whitespace run is the
delimiter. -/
def headSentEnd : List Char → Bool
  | [] => false
  | p :: _ => isSentEnd p

def sentSplitGo : List Char → Bool → List Char → List (List Char)
  | [], _, acc => [acc.reverse]
  | c :: rest, skipping, acc =>
    if isSpaceChar c then
      if skipping then sentSplitGo rest true acc
      else if headSentEnd acc then acc.reverse :: sentSplitGo rest true []
      else sentSplitGo rest false (c :: acc)
    else sentSplitGo rest false (c :: acc)

/-- `re.split(r'(?<=[.!?])\s+', text)`. -/
def split_sentences (text : String) : List String :=
  (sentSplitGo text.data false []).map String.mk

/-- The stopword-filtered alphabetic words of the lower-cased text:
`ArticleProcessor._calculate_word_frequencies` before counting. -/
def freq_words (stop : List String) (text : String) : List String :=
  (word_tokenize (pyLower text)).filter
    (fun word => word.data.all Char.isAlpha && !word.data.isEmpty && !stop.contains word)

/-- `word_freq.get(word, 0)` of `_calculate_word_frequencies`. -/
def word_freq_of (stop : List String) (text word : String) : ℕ :=
  (freq_words stop text).count word

/-- The score of one sentence in `generate_summary`: the frequency sum over
its alphabetic tokens, divided by its raw token count (`0` for a tokenless
sentence). -/
def sentence_score (stop : List String) (text sentence : String) : ℚ :=
  if 0 < (word_tokenize (pyLower sentence)).length then
    ((((word_tokenize (pyLower sentence)).filter pyIsAlpha).map
        (word_freq_of stop text)).sum : ℚ)
      / ((word_tokenize (pyLower sentence)).length : ℚ)
  else 0

/-- `top_indices` of `generate_summary`: all sentence indices sorted by score
descending (Python's stable `sorted`), truncated to the summary length, then
re-sorted ascending by position. -/
def summary_indices (stop : List String) (n : ℕ) (text : String) : List ℕ :=
  ((sortDescBy
      (fun i => sentence_score stop text ((split_sentences text).getD i ""))
      (List.range (split_sentences text).length)).take n).insertionSort (· ≤ ·)

/-- `summary_sentences` of `generate_summary`: the selected sentences in
original position order. -/
def summary_sentences (stop : List String) (n : ℕ) (text : String) : List String :=
  (summary_indices stop n text).map (fun i => (split_sentences text).getD i "")

/-- `ArticleProcessor.generate_summary`: return `""` for no sentences
(unreachable), the whole text when it has at most `n` sentences, and
otherwise the top-`n` sentences by frequency score joined in original order. -/
def generate_summary (stop : List String) (n : ℕ) (text : String) : String :=
  if split_sentences text = [] then ""
  else if (split_sentences text).length ≤ n then text
  else String.intercalate " " (summary_sentences stop n text)

/-- Python `datetime.datetime` without timezone, as the articles store it. -/
structure Datetime where
  year : ℕ
  month : ℕ
  day : ℕ
  hour : ℕ
  minute : ℕ
  second : ℕ
  microsecond : ℕ
deriving DecidableEq

/-- The decimal digit character of a digit `< 10` (larger inputs clamp). -/
def dc : ℕ → Char
  | 0 => '0' | 1 => '1' | 2 => '2' | 3 => '3' | 4 => '4'
  | 5 => '5' | 6 => '6' | 7 => '7' | 8 => '8' | _ => '9'

/-- The numeric value of a digit character. -/
def dv (c : Char) : ℕ := c.toNat - 48

def dv2 (a b : Char) : ℕ := 10 * dv a + dv b

def dv4 (a b c d : Char) : ℕ := 1000 * dv a + 100 * dv b + 10 * dv c + dv d

def dv6 (a b c d e f : Char) : ℕ :=
  100000 * dv a + 10000 * dv b + 1000 * dv c + 100 * dv d + 10 * dv e + dv f

/-- The characters of `datetime.isoformat()`: `YYYY-MM-DDTHH:MM:SS`, with
`.ffffff` appended exactly when the microsecond field is nonzero. -/
def iso_chars (d : Datetime) : List Char :=
  [dc (d.year / 1000 % 10), dc (d.year / 100 % 10), dc (d.year / 10 % 10),
   dc (d.year % 10), '-', dc (d.month / 10 % 10), dc (d.month % 10), '-',
   dc (d.day / 10 % 10), dc (d.day % 10), 'T', dc (d.hour / 10 % 10),
   dc (d.hour % 10), ':', dc (d.minute / 10 % 10), dc (d.minute % 10), ':',
   dc (d.second / 10 % 10), dc (d.second % 10)]
  ++ (if d.microsecond = 0 then []
      else ['.', dc (d.microsecond / 100000 % 10), dc (d.microsecond / 10000 % 10),
            dc (d.microsecond / 1000 % 10), dc (d.microsecond / 100 % 10),
            dc (d.microsecond / 10 % 10), dc (d.microsecond % 10)])

/-- `datetime.isoformat()`. -/
def iso_format (d : Datetime) : String := String.mk (iso_chars d)

/-- `datetime.fromisoformat` on the formats `isoformat` emits; `none` models
the `ValueError` on anything else. -/
def parse_iso (s : String) : Option Datetime :=
  match s.data with
  | [y1, y2, y3, y4, dash1, mo1, mo2, dash2, d1, d2, tsep,
     h1, h2, col1, mi1, mi2, col2, sc1, sc2] =>
    if dash1 = '-' ∧ dash2 = '-' ∧ tsep = 'T' ∧ col1 = ':' ∧ col2 = ':'
        ∧ ([y1, y2, y3, y4, mo1, mo2, d1, d2, h1, h2, mi1, mi2, sc1, sc2].all
            Char.isDigit) = true then
      some ⟨dv4 y1 y2 y3 y4, dv2 mo1 mo2, dv2 d1 d2, dv2 h1 h2, dv2 mi1 mi2,
        dv2 sc1 sc2, 0⟩
    else none
  | [y1, y2, y3, y4, dash1, mo1, mo2, dash2, d1, d2, tsep,
     h1, h2, col1, mi1, mi2, col2, sc1, sc2, dot, u1, u2, u3, u4, u5, u6] =>
    if dash1 = '-' ∧ dash2 = '-' ∧ tsep = 'T' ∧ col1 = ':' ∧ col2 = ':' ∧ dot = '.'
        ∧ ([y1, y2, y3, y4, mo1, mo2, d1, d2, h1, h2, mi1, mi2, sc1, sc2,
            u1, u2, u3, u4, u5, u6].all Char.isDigit) = true then
      some ⟨dv4 y1 y2 y3 y4, dv2 mo1 mo2, dv2 d1 d2, dv2 h1 h2, dv2 mi1 mi2,
        dv2 sc1 sc2, dv6 u1 u2 u3 u4 u5 u6⟩
    else none
  | _ => none

/-- The `Article` dataclass of `models/article.py`. -/
structure Article where
  id : String
  title : String
  url : String
  source : String
  published_date : Datetime
  content : String
  category : String := "general"
  author : Option String := none
  image_url : Option String := none
  keywords : List String := []
  summary : Option String := none
  sentiment_score : ℚ := 0
  relevance_scores : List (String × ℚ) := []
deriving DecidableEq

/-- The dictionary produced by `Article.to_dict`: the keys always written are
plain fields; the keys `Article.from_dict` reads with `.get` are `Option`s
(`none` models an absent key, matching Python's `.get` defaulting). -/
structure ArticleDict where
  id : String
  title : String
  url : String
  source : String
  published_date : String
  content : String
  category : Option String
  author : Option String
  image_url : Option String
  keywords : Option (List String)
  summary : Option String
  sentiment_score : Option ℚ
  relevance_scores : Option (List (String × ℚ))
deriving DecidableEq

/-- `Article.to_dict`: every field is written; the publication timestamp is
serialized with `isoformat()`. -/
def to_dict (a : Article) : ArticleDict :=
  { id := a.id
    title := a.title
    url := a.url
    source := a.source
    published_date := iso_format a.published_date
    content := a.content
    category := some a.category
    author := a.author
    image_url := a.image_url
    keywords := some a.keywords
    summary := a.summary
    sentiment_score := some a.sentiment_score
    relevance_scores := some a.relevance_scores }

/-- `Article.from_dict`: parse the timestamp from its ISO string (a failing
parse raises, modelled by `none`) and read the optional keys with their
defaults. -/
def from_dict (d : ArticleDict) : Option Article :=
  match parse_iso d.published_date with
  | none => none
  | some pd =>
    some { id := d.id
           title := d.title
           url := d.url
           source := d.source
           published_date := pd
           content := d.content
           category := d.category.getD "general"
           author := d.author
           image_url := d.image_url
           keywords := d.keywords.getD []
           summary := d.summary
           sentiment_score := d.sentiment_score.getD 0
           relevance_scores := d.relevance_scores.getD [] }

/-- Assignment `m[k] = v` on an association-list dict: replace the existing
entry in place or append a fresh one. -/
def dictInsert : List (String × ℚ) → String → ℚ → List (String × ℚ)
  | [], k, v => [(k, v)]
  | (k', v') :: t, k, v =>
    if k' = k then (k, v) :: t else (k', v') :: dictInsert t k v

/-- `Article.add_user_relevance`: `self.relevance_scores[user_id] = score`. -/
def add_user_relevance (a : Article) (user_id : String) (score : ℚ) : Article :=
  { a with relevance_scores := dictInsert a.relevance_scores user_id score }

/-- The per-article body of `ArticleProcessor.process_articles`: write the
extracted keywords, the category of those keywords, the sentiment of the
content, and the summary of the content. -/
def process_article (stop : List String) (lemmatize : String → String)
    (min_length max_count summarize_length : ℕ) (a : Article) : Article :=
  { a with
    keywords := extract_keywords stop lemmatize min_length max_count a.content
    category := categorize_article
      (extract_keywords stop lemmatize min_length max_count a.content)
    sentiment_score := analyze_sentiment a.content
    summary := some (generate_summary stop summarize_length a.content) }

/-- The per-article body of `ArticleProcessor.calculate_relevance_for_user`. -/
def score_article_for_user (u : User) (a : Article) : Article :=
  add_user_relevance a u.id (matches_article u a.keywords a.source a.category)

/-- Python `user.id in article.relevance_scores`. -/
def has_relevance_for (a : Article) (uid : String) : Bool :=
  (a.relevance_scores.lookup uid).isSome

/-- Python `article.relevance_scores.get(user.id, 0)`. -/
def relevance_for (a : Article) (uid : String) : ℚ :=
  (a.relevance_scores.lookup uid).getD 0

/-- The selection logic of `NewsletterGenerator.generate_newsletter` (with
the default `max_articles`, the user's limit): keep the articles having a
relevance entry for the user, sort them by that relevance descending
(Python's `sorted` is stable), and take the top entries. -/
def select_articles (user : User) (articles : List Article) : List Article :=
  (sortDescBy (fun a => relevance_for a user.id)
    (articles.filter (fun a => has_relevance_for a user.id))).take
    user.max_articles_per_newsletter

/-! ## Theorems: the claims and their supporting lemmas -/

theorem interest_match_count_of_no_interests (u : User) (kws : List String)
    (h : u.interests = []) : interest_match_count u kws = 0 := by
  simp [interest_match_count, h]

/-- C1: for every keyword list, source, category, and user, the relevance
score of `User.matches_article` lies in `[0, 1]`; with an empty interests list
the interest-overlap term is `0` (its guarded division never fires). -/
theorem matches_article_in_unit_interval (u : User) (kws : List String)
    (source category : String) :
    (0 ≤ matches_article u kws source category
      ∧ matches_article u kws source category ≤ 1)
    ∧ (u.interests = [] → interest_term u kws = 0) := by
  refine ⟨⟨le_max_left _ _, ?_⟩, ?_⟩
  · exact max_le (by norm_num) (min_le_right _ _)
  · intro h
    simp [interest_term, interest_match_count_of_no_interests u kws h]

/-- Witness for C1 at a concrete interest-less user. -/
theorem matches_article_in_unit_interval_witness :
    (0 ≤ matches_article
        { id := "u1", name := "Ada", email := "a@b.c", interests := [] }
        ["ai", "chip"] "BBC News" "technology"
      ∧ matches_article
        { id := "u1", name := "Ada", email := "a@b.c", interests := [] }
        ["ai", "chip"] "BBC News" "technology" ≤ 1)
    ∧ interest_term
        { id := "u1", name := "Ada", email := "a@b.c", interests := [] }
        ["ai", "chip"] = 0 :=
  ⟨(matches_article_in_unit_interval _ _ _ _).1,
    (matches_article_in_unit_interval
      { id := "u1", name := "Ada", email := "a@b.c", interests := [] }
      ["ai", "chip"] "BBC News" "technology").2 rfl⟩

/-- C7: two keyword lists that agree on the interest-overlap count and both
contain at least one excluded-keyword match get the same relevance score from
the same user, source, and category: the deduction is `min(count, 1) * 0.5`
in both cases. -/
theorem excluded_penalty_capped (u : User) (source category : String)
    (kws₁ kws₂ : List String)
    (hi : interest_match_count u kws₁ = interest_match_count u kws₂)
    (h₁ : 1 ≤ excluded_match_count u kws₁)
    (h₂ : 1 ≤ excluded_match_count u kws₂) :
    matches_article u kws₁ source category = matches_article u kws₂ source category := by
  have hterm : ∀ kws : List String, 1 ≤ excluded_match_count u kws →
      excluded_term u kws = 1 / 2 := by
    intro kws h
    have h1 : (1 : ℚ) ≤ (excluded_match_count u kws : ℚ) := by exact_mod_cast h
    simp only [excluded_term, if_pos (Nat.lt_of_lt_of_le Nat.zero_lt_one h)]
    rw [min_eq_right h1, one_mul]
  have hint : interest_term u kws₁ = interest_term u kws₂ := by
    simp [interest_term, hi]
  simp [matches_article, hint, hterm kws₁ h₁, hterm kws₂ h₂]

/-- Witness for C7: one excluded match and two excluded matches produce the
same score. -/
theorem excluded_penalty_capped_witness :
    matches_article
      { id := "u2", name := "Bo", email := "b@b.c", excluded_keywords := ["spam"] }
      ["spamton"] "s" "c"
    = matches_article
      { id := "u2", name := "Bo", email := "b@b.c", excluded_keywords := ["spam"] }
      ["spamalot", "spammy"] "s" "c" :=
  excluded_penalty_capped
    { id := "u2", name := "Bo", email := "b@b.c", excluded_keywords := ["spam"] }
    "s" "c" ["spamton"] ["spamalot", "spammy"]
    (by decide) (by decide) (by decide)

theorem pyMaxKey_first_argmax {α : Type} (f : α → ℕ) :
    ∀ (l : List α) (a : α),
      ∃ pre suf, a :: l = pre ++ pyMaxKey f a l :: suf
        ∧ (∀ x ∈ pre, f x < f (pyMaxKey f a l))
        ∧ (∀ x ∈ a :: l, f x ≤ f (pyMaxKey f a l)) := by
  intro l
  induction l with
  | nil =>
      intro a
      exact ⟨[], [], rfl, by simp, by simp [pyMaxKey]⟩
  | cons b t ih =>
      intro a
      by_cases hab : f a < f b
      · obtain ⟨pre, suf, hsplit, hpre, hle⟩ := ih b
        set m := pyMaxKey f b t with hm
        have hres : pyMaxKey f a (b :: t) = m := by
          simp [pyMaxKey, hab, hm]
        have hbm : f b ≤ f m := hle b (List.mem_cons_self b t)
        refine ⟨a :: pre, suf, ?_, ?_, ?_⟩
        · rw [hres, List.cons_append, ← hsplit]
        · simp only [hres]
          intro x hx
          rcases List.mem_cons.mp hx with rfl | hx
          · exact lt_of_lt_of_le hab hbm
          · exact hpre x hx
        · simp only [hres]
          intro x hx
          rcases List.mem_cons.mp hx with rfl | hx
          · exact le_of_lt (lt_of_lt_of_le hab hbm)
          · exact hle x hx
      · obtain ⟨pre, suf, hsplit, hpre, hle⟩ := ih a
        set m := pyMaxKey f a t with hm
        have hres : pyMaxKey f a (b :: t) = m := by
          simp [pyMaxKey, hab, hm]
        have hba : f b ≤ f a := Nat.le_of_not_lt hab
        cases pre with
        | nil =>
            simp only [List.nil_append] at hsplit
            injection hsplit with h1 h2
            refine ⟨[], b :: t, ?_, by simp, ?_⟩
            · rw [hres, ← h1, List.nil_append]
            · simp only [hres]
              intro x hx
              rcases List.mem_cons.mp hx with rfl | hx
              · exact hle x (List.mem_cons_self x t)
              · rcases List.mem_cons.mp hx with rfl | hx
                · calc f x ≤ f a := hba
                    _ ≤ f m := hle a (List.mem_cons_self a t)
                · exact hle x (List.mem_cons_of_mem a hx)
        | cons p pre' =>
            rw [List.cons_append] at hsplit
            injection hsplit with h1 h2
            have hfa : f a < f m := by
              rw [h1]; exact hpre p (List.mem_cons_self p pre')
            refine ⟨a :: b :: pre', suf, ?_, ?_, ?_⟩
            · rw [hres]
              rw [show a :: b :: t = a :: b :: (pre' ++ m :: suf) from by rw [← h2]]
              simp
            · simp only [hres]
              intro x hx
              rcases List.mem_cons.mp hx with rfl | hx
              · exact hfa
              · rcases List.mem_cons.mp hx with rfl | hx
                · exact lt_of_le_of_lt hba hfa
                · exact hpre x (List.mem_cons_of_mem p hx)
            · simp only [hres]
              intro x hx
              rcases List.mem_cons.mp hx with rfl | hx
              · exact le_of_lt hfa
              · rcases List.mem_cons.mp hx with rfl | hx
                · exact le_of_lt (lt_of_le_of_lt hba hfa)
                · exact hle x (List.mem_cons_of_mem a hx)

theorem foldr_max_zero_iff (l : List ℕ) :
    l.foldr max 0 = 0 ↔ ∀ x ∈ l, x = 0 := by
  induction l with
  | nil => simp
  | cons a t ih =>
      simp only [List.foldr_cons, Nat.max_eq_zero_iff, List.mem_cons]
      constructor
      · rintro ⟨ha, ht⟩ x (rfl | hx)
        · exact ha
        · exact ih.mp ht x hx
      · intro h
        exact ⟨h a (Or.inl rfl), ih.mpr fun x hx => h x (Or.inr hx)⟩

/-- C2: the categorizer returns a category of the fixed list; it returns
`"general"` when every category's keyword-overlap count is zero; its result
attains the maximal overlap count; and when some count is positive, the
result is the first category of the definition order attaining the maximum
(every earlier category scores strictly less). -/
theorem categorize_article_spec (kws : List String) :
    categorize_article kws ∈ default_categories
    ∧ ((∀ c ∈ default_categories, category_score kws c = 0) →
        categorize_article kws = "general")
    ∧ (∀ c ∈ default_categories,
        category_score kws c ≤ category_score kws (categorize_article kws))
    ∧ ((∃ c ∈ default_categories, 0 < category_score kws c) →
        ∃ pre suf, default_categories = pre ++ categorize_article kws :: suf
          ∧ ∀ c ∈ pre, category_score kws c < category_score kws (categorize_article kws)) := by
  by_cases hz : (default_categories.map (category_score kws)).foldr max 0 = 0
  · have hall : ∀ c ∈ default_categories, category_score kws c = 0 := by
      intro c hc
      exact (foldr_max_zero_iff _).mp hz _ (List.mem_map_of_mem _ hc)
    have hres : categorize_article kws = "general" := by
      simp [categorize_article, hz]
    refine ⟨?_, fun _ => hres, ?_, ?_⟩
    · rw [hres]; simp [default_categories, other_categories]
    · intro c hc
      rw [hall c hc]
      exact Nat.zero_le _
    · rintro ⟨c, hc, hpos⟩
      exact absurd (hall c hc) (Nat.pos_iff_ne_zero.mp hpos)
  · have hres : categorize_article kws =
        pyMaxKey (category_score kws) "technology" other_categories := by
      simp [categorize_article, hz]
    obtain ⟨pre, suf, hsplit, hpre, hle⟩ :=
      pyMaxKey_first_argmax (category_score kws) other_categories "technology"
    refine ⟨?_, ?_, ?_, ?_⟩
    · rw [hres, default_categories, hsplit]
      exact List.mem_append_right pre (List.mem_cons_self _ _)
    · intro hall
      exact absurd ((foldr_max_zero_iff _).mpr (by
        intro x hx
        obtain ⟨c, hc, rfl⟩ := List.mem_map.mp hx
        exact hall c hc)) hz
    · intro c hc
      rw [hres]
      exact hle c hc
    · intro _
      exact ⟨pre, suf, by rw [hres, default_categories, hsplit], by rw [hres]; exact hpre⟩

/-- Witness for C2 on the tie `["startup"]` (a lexicon word of both
`"technology"` and `"business"`): the categorizer settles the tie on
`"technology"`, the earlier category. -/
theorem categorize_article_spec_witness :
    (∃ pre suf, default_categories = pre ++ categorize_article ["startup"] :: suf
      ∧ ∀ c ∈ pre,
          category_score ["startup"] c < category_score ["startup"] (categorize_article ["startup"]))
    ∧ categorize_article ["startup"] = "technology" :=
  ⟨(categorize_article_spec ["startup"]).2.2.2 (by decide), by decide⟩

/-- C3: for every text the sentiment score lies in `[-1, 1]`; it is exactly
`0` when the text contains no positive or negative lexicon word (in
particular for the empty text), and otherwise it equals
`(pos_count - neg_count) / (pos_count + neg_count)`. -/
theorem analyze_sentiment_spec (text : String) :
    (-1 ≤ analyze_sentiment text ∧ analyze_sentiment text ≤ 1)
    ∧ (sentiment_pos_count text + sentiment_neg_count text = 0 →
        analyze_sentiment text = 0)
    ∧ (sentiment_pos_count text + sentiment_neg_count text ≠ 0 →
        analyze_sentiment text =
          ((sentiment_pos_count text : ℚ) - (sentiment_neg_count text : ℚ))
            / ((sentiment_pos_count text : ℚ) + (sentiment_neg_count text : ℚ))) := by
  set p := sentiment_pos_count text with hp
  set n := sentiment_neg_count text with hn
  by_cases h : p + n = 0
  · have h0 : analyze_sentiment text = 0 := by
      simp only [analyze_sentiment, ← hp, ← hn, h]
      norm_num
    exact ⟨⟨by rw [h0]; norm_num, by rw [h0]; norm_num⟩, fun _ => h0, fun hc => absurd h hc⟩
  · have htot : (0 : ℚ) < (p : ℚ) + (n : ℚ) := by
      have : 0 < p + n := Nat.pos_of_ne_zero h
      exact_mod_cast this
    have hval : analyze_sentiment text = ((p : ℚ) - (n : ℚ)) / ((p : ℚ) + (n : ℚ)) := by
      simp only [analyze_sentiment, ← hp, ← hn, h, if_false]
      push_cast
      ring_nf
    refine ⟨⟨?_, ?_⟩, fun hc => absurd hc h, fun _ => hval⟩
    · rw [hval, le_div_iff₀ htot]
      have hp0 : (0 : ℚ) ≤ (p : ℚ) := Nat.cast_nonneg p
      linarith
    · rw [hval, div_le_one htot]
      have hn0 : (0 : ℚ) ≤ (n : ℚ) := Nat.cast_nonneg n
      linarith

/-- Witness for C3: a bound at a mixed text, the zero case at the empty text,
and the formula at a concrete text with one positive and two negative hits. -/
theorem analyze_sentiment_spec_witness :
    (-1 ≤ analyze_sentiment "a good day, a bad week, a bad year!"
      ∧ analyze_sentiment "a good day, a bad week, a bad year!" ≤ 1)
    ∧ analyze_sentiment "" = 0
    ∧ analyze_sentiment "a good day, a bad week, a bad year!" =
        ((sentiment_pos_count "a good day, a bad week, a bad year!" : ℚ)
          - (sentiment_neg_count "a good day, a bad week, a bad year!" : ℚ))
        / ((sentiment_pos_count "a good day, a bad week, a bad year!" : ℚ)
          + (sentiment_neg_count "a good day, a bad week, a bad year!" : ℚ)) :=
  ⟨(analyze_sentiment_spec "a good day, a bad week, a bad year!").1,
    (analyze_sentiment_spec "").2.1 (by decide),
    (analyze_sentiment_spec "a good day, a bad week, a bad year!").2.2 (by decide)⟩

theorem sortDescByEnum_perm {α β : Type} [LinearOrder β] (key : α → β) (l : List α) :
    List.Perm (sortDescByEnum key l) l.enum :=
  List.perm_insertionSort _ _

theorem sortDescByEnum_pairwise {α β : Type} [LinearOrder β] (key : α → β) (l : List α) :
    (sortDescByEnum key l).Pairwise (descRel key) :=
  List.sorted_insertionSort _ _

theorem sortDescBy_perm {α β : Type} [LinearOrder β] (key : α → β) (l : List α) :
    List.Perm (sortDescBy key l) l := by
  have h := (sortDescByEnum_perm key l).map Prod.snd
  rwa [List.enum_map_snd] at h

theorem sortDescBy_pairwise {α β : Type} [LinearOrder β] (key : α → β) (l : List α) :
    (sortDescBy key l).Pairwise (fun a b => key b ≤ key a) := by
  rw [sortDescBy, List.pairwise_map]
  refine (sortDescByEnum_pairwise key l).imp ?_
  rintro p q (h | ⟨h, _⟩)
  · exact le_of_lt h
  · exact le_of_eq h.symm

theorem counter_keys_aux_nodup :
    ∀ (l seen : List String), (counter_keys_aux seen l).Nodup
      ∧ ∀ x ∈ counter_keys_aux seen l, ¬ seen.contains x = true := by
  intro l
  induction l with
  | nil =>
      intro seen
      refine ⟨by simp [counter_keys_aux], ?_⟩
      intro x hx
      simp [counter_keys_aux] at hx
  | cons a t ih =>
      intro seen
      by_cases ha : seen.contains a = true
      · rw [counter_keys_aux, if_pos ha]
        exact ih seen
      · obtain ⟨hnd, hns⟩ := ih (a :: seen)
        rw [counter_keys_aux, if_neg ha]
        constructor
        · refine List.nodup_cons.mpr ⟨?_, hnd⟩
          intro hmem
          exact hns a hmem (by simp)
        · intro x hx
          rcases List.mem_cons.mp hx with rfl | hx
          · exact ha
          · intro hc
            refine hns x hx ?_
            have hm : x ∈ seen := by simpa using hc
            simpa using Or.inr hm

theorem counter_keys_nodup (l : List String) : (counter_keys l).Nodup :=
  (counter_keys_aux_nodup l []).1

theorem counter_keys_aux_subset :
    ∀ (l seen : List String), ∀ x ∈ counter_keys_aux seen l, x ∈ l := by
  intro l
  induction l with
  | nil => intro seen x hx; simp [counter_keys_aux] at hx
  | cons a t ih =>
      intro seen x hx
      by_cases ha : seen.contains a = true
      · rw [counter_keys_aux, if_pos ha] at hx
        exact List.mem_cons_of_mem a (ih seen x hx)
      · rw [counter_keys_aux, if_neg ha] at hx
        rcases List.mem_cons.mp hx with rfl | hx
        · exact List.mem_cons_self x t
        · exact List.mem_cons_of_mem a (ih (a :: seen) x hx)

theorem hasSub_singleton (l : List Char) (c : Char) (h : c ∈ l) :
    hasSub l [c] = true := by
  induction l with
  | nil => cases h
  | cons x t ih =>
      rw [hasSub]
      by_cases hcx : ([c] : List Char).isPrefixOf (x :: t) = true
      · rw [if_pos hcx]
      · rw [if_neg hcx]
        rcases List.mem_cons.mp h with rfl | h
        · exact absurd (by simp [List.isPrefixOf]) hcx
        · exact ih h

theorem punct_chars_not_alpha :
    ∀ c ∈ string_punctuation.data, c.isAlpha = false := by decide

theorem punct_chars_not_digit :
    ∀ c ∈ string_punctuation.data, c.isDigit = false := by decide

theorem tokGo_shape :
    ∀ (l : List Char) (cur : Option (Bool × List Char)), curInv cur →
      ∀ t ∈ tokGo l cur,
        t ≠ [] ∧ (t.all Char.isAlpha = true ∨ t.all Char.isDigit = true ∨ ∃ c, t = [c]) := by
  intro l
  induction l with
  | nil =>
      intro cur hinv t ht
      match cur with
      | none => simp [tokGo] at ht
      | some (b, acc) =>
          simp only [tokGo, List.mem_singleton] at ht
          subst ht
          obtain ⟨hne, hall⟩ := hinv
          refine ⟨by simpa using hne, ?_⟩
          cases b with
          | true => exact Or.inl (by simpa using hall)
          | false => exact Or.inr (Or.inl (by simpa using hall))
  | cons c rest ih =>
      intro cur hinv t ht
      have hnew : ∀ t ∈ (if c.isAlpha then tokGo rest (some (true, [c]))
          else if c.isDigit then tokGo rest (some (false, [c]))
          else if isSpaceChar c then tokGo rest none
          else [c] :: tokGo rest none),
          t ≠ [] ∧ (t.all Char.isAlpha = true ∨ t.all Char.isDigit = true ∨ ∃ d, t = [d]) := by
        intro t ht
        by_cases hca : c.isAlpha = true
        · rw [if_pos hca] at ht
          exact ih (some (true, [c])) ⟨by simp, by simpa using hca⟩ t ht
        · rw [if_neg hca] at ht
          by_cases hcd : c.isDigit = true
          · rw [if_pos hcd] at ht
            exact ih (some (false, [c])) ⟨by simp, by simpa using hcd⟩ t ht
          · rw [if_neg hcd] at ht
            by_cases hcs : isSpaceChar c = true
            · rw [if_pos hcs] at ht
              exact ih none trivial t ht
            · rw [if_neg hcs] at ht
              rcases List.mem_cons.mp ht with rfl | ht
              · exact ⟨by simp, Or.inr (Or.inr ⟨c, rfl⟩)⟩
              · exact ih none trivial t ht
      match cur with
      | none =>
          rw [tokGo] at ht
          exact hnew t ht
      | some (isAl, acc) =>
          obtain ⟨hne, hall⟩ := hinv
          rw [tokGo] at ht
          by_cases hcond : ((isAl && c.isAlpha) || (!isAl && c.isDigit)) = true
          · rw [if_pos hcond] at ht
            refine ih (some (isAl, c :: acc)) ?_ t ht
            refine ⟨by simp, ?_⟩
            refine List.all_eq_true.mpr ?_
            intro x hx
            rcases List.mem_cons.mp hx with rfl | hx
            · cases isAl with
              | true =>
                  simp only [Bool.true_and, Bool.not_true, Bool.false_and,
                    Bool.or_false] at hcond
                  simpa using hcond
              | false =>
                  simp only [Bool.false_and, Bool.not_false, Bool.true_and,
                    Bool.false_or] at hcond
                  simpa using hcond
            · exact List.all_eq_true.mp hall x hx
          · rw [if_neg hcond] at ht
            rcases List.mem_cons.mp ht with rfl | ht
            · refine ⟨by simpa using hne, ?_⟩
              cases isAl with
              | true => exact Or.inl (by simpa using hall)
              | false => exact Or.inr (Or.inl (by simpa using hall))
            · exact hnew t ht

theorem word_tokenize_shape (s : String) :
    ∀ t ∈ word_tokenize s,
      t.data ≠ [] ∧ (t.data.all Char.isAlpha = true ∨ t.data.all Char.isDigit = true
        ∨ ∃ c, t.data = [c]) := by
  intro t ht
  obtain ⟨cs, hcs, rfl⟩ := List.mem_map.mp ht
  exact tokGo_shape s.data none trivial cs hcs

theorem filtered_token_clean (stop : List String) (min_length : ℕ) (text : String) :
    ∀ t ∈ (word_tokenize (pyLower text)).filter (fun token =>
        !stop.contains token
        && !(hasSub string_punctuation.data token.data)
        && min_length ≤ token.length
        && !pyIsDigit token),
      is_clean_token stop t := by
  intro t ht
  obtain ⟨htok, hcond⟩ := List.mem_filter.mp ht
  simp only [Bool.and_eq_true, Bool.not_eq_true', decide_eq_true_eq] at hcond
  obtain ⟨⟨⟨hstop, hpunct⟩, _⟩, hdigit⟩ := hcond
  refine ⟨hstop, hdigit, ?_⟩
  obtain ⟨hne, hshape⟩ := word_tokenize_shape (pyLower text) t htok
  rw [Bool.and_eq_false_iff]
  by_cases hpp : t.data.all (fun c => string_punctuation.data.contains c) = true
  · exfalso
    rcases hshape with hsh | hsh | ⟨c, hc⟩
    · obtain ⟨c, cs, hcons⟩ := List.exists_cons_of_ne_nil hne
      have hc1 : c.isAlpha = true := by
        have := List.all_eq_true.mp hsh c (by rw [hcons]; exact List.mem_cons_self c cs)
        exact this
      have hc2 : string_punctuation.data.contains c = true := by
        have := List.all_eq_true.mp hpp c (by rw [hcons]; exact List.mem_cons_self c cs)
        exact this
      exact absurd hc1 (by
        rw [punct_chars_not_alpha c (by simpa using hc2)]
        simp)
    · obtain ⟨c, cs, hcons⟩ := List.exists_cons_of_ne_nil hne
      have hc1 : c.isDigit = true :=
        List.all_eq_true.mp hsh c (by rw [hcons]; exact List.mem_cons_self c cs)
      have hc2 : string_punctuation.data.contains c = true :=
        List.all_eq_true.mp hpp c (by rw [hcons]; exact List.mem_cons_self c cs)
      exact absurd hc1 (by
        rw [punct_chars_not_digit c (by simpa using hc2)]
        simp)
    · have hc2 : string_punctuation.data.contains c = true :=
        List.all_eq_true.mp hpp c (by rw [hc]; exact List.mem_cons_self c [])
      have h3 := hasSub_singleton string_punctuation.data c (by simpa using hc2)
      rw [← hc] at h3
      rw [hpunct] at h3
      exact Bool.false_ne_true h3
  · exact Or.inr (by simpa using hpp)

/-- C4: for every stopword set, length-and-count parameters, and text, given
a lemmatizer that maps clean tokens to clean tokens, the extracted keyword
list has at most `max_count` entries, has no duplicates, and contains no
stopword, no purely numeric token, and no purely punctuation token. -/
theorem extract_keywords_spec (stop : List String) (lemmatize : String → String)
    (min_length max_count : ℕ) (text : String)
    (hlem : ∀ t, is_clean_token stop t → is_clean_token stop (lemmatize t)) :
    (extract_keywords stop lemmatize min_length max_count text).length ≤ max_count
    ∧ (extract_keywords stop lemmatize min_length max_count text).Nodup
    ∧ ∀ k ∈ extract_keywords stop lemmatize min_length max_count text,
        is_clean_token stop k := by
  unfold extract_keywords most_common
  set filtered := ((word_tokenize (pyLower text)).filter (fun token =>
      !stop.contains token
      && !(hasSub string_punctuation.data token.data)
      && min_length ≤ token.length
      && !pyIsDigit token)).map lemmatize with hfiltered
  set pairs := (counter_keys filtered).map (fun k => (k, filtered.count k)) with hpairs
  refine ⟨?_, ?_, ?_⟩
  · rw [List.length_map, List.length_take]
    exact min_le_left _ _
  · have hkeys : (pairs.map Prod.fst) = counter_keys filtered := by
      rw [hpairs, List.map_map]
      exact List.map_id _
    have h1 : ((sortDescBy Prod.snd pairs).map Prod.fst).Nodup := by
      have hperm : List.Perm ((sortDescBy Prod.snd pairs).map Prod.fst)
          (pairs.map Prod.fst) :=
        (sortDescBy_perm Prod.snd pairs).map Prod.fst
      rw [hperm.nodup_iff, hkeys]
      exact counter_keys_nodup filtered
    exact List.Nodup.sublist (List.Sublist.map Prod.fst (List.take_sublist _ _)) h1
  · intro k hk
    obtain ⟨q, hq, rfl⟩ := List.mem_map.mp hk
    have hq1 : q ∈ sortDescBy Prod.snd pairs := (List.take_sublist _ _).mem hq
    have hq2 : q ∈ pairs := (sortDescBy_perm Prod.snd pairs).mem_iff.mp hq1
    obtain ⟨k', hk', hkeq⟩ := List.mem_map.mp hq2
    have hkmem : q.1 ∈ filtered := by
      rw [← hkeq]
      exact counter_keys_aux_subset filtered [] k' hk'
    obtain ⟨t, htmem, heq⟩ := List.mem_map.mp hkmem
    rw [← heq]
    exact hlem t (filtered_token_clean stop min_length text t htmem)

/-- Witness for C4 at the identity lemmatizer and a concrete text. -/
theorem extract_keywords_spec_witness :
    (extract_keywords ["the", "a"] id 3 5
        "The market market rallied, a good day for the stock market!").length ≤ 5
    ∧ (extract_keywords ["the", "a"] id 3 5
        "The market market rallied, a good day for the stock market!").Nodup
    ∧ ∀ k ∈ extract_keywords ["the", "a"] id 3 5
        "The market market rallied, a good day for the stock market!",
        is_clean_token ["the", "a"] k :=
  extract_keywords_spec ["the", "a"] id 3 5
    "The market market rallied, a good day for the stock market!"
    (fun _ h => h)

theorem sentSplitGo_ne_nil :
    ∀ (l : List Char) (skipping : Bool) (acc : List Char),
      sentSplitGo l skipping acc ≠ [] := by
  intro l
  induction l with
  | nil => intro skipping acc; simp [sentSplitGo]
  | cons c rest ih =>
      intro skipping acc
      rw [sentSplitGo]
      by_cases hsp : isSpaceChar c = true
      · rw [if_pos hsp]
        cases skipping with
        | true => simpa using ih true acc
        | false =>
            by_cases hse : headSentEnd acc = true
            · simp only [Bool.false_eq_true, if_false, hse, if_true]
              exact List.cons_ne_nil _ _
            · simp only [Bool.false_eq_true, if_false, hse]
              exact ih false (c :: acc)
      · rw [if_neg hsp]
        exact ih false (c :: acc)

theorem split_sentences_ne_nil (text : String) : split_sentences text ≠ [] := by
  unfold split_sentences
  intro h
  exact sentSplitGo_ne_nil text.data false [] (List.map_eq_nil_iff.mp h)

/-- C5: whenever the text splits into at most `n` sentences, the summarizer
returns the whole text unchanged. -/
theorem generate_summary_short_circuit (stop : List String) (n : ℕ) (text : String)
    (h : (split_sentences text).length ≤ n) :
    generate_summary stop n text = text := by
  rw [generate_summary, if_neg (split_sentences_ne_nil text), if_pos h]

/-- Witness for C5: a two-sentence text with a three-sentence target. -/
theorem generate_summary_short_circuit_witness :
    (split_sentences "Hi there. All good.").length ≤ 3
    ∧ generate_summary [] 3 "Hi there. All good." = "Hi there. All good." :=
  ⟨by decide, generate_summary_short_circuit [] 3 "Hi there. All good." (by decide)⟩

theorem map_getD_sublist {α : Type} (d : α) :
    ∀ (l : List α) (idxs : List ℕ), idxs.Pairwise (· < ·) →
      (∀ i ∈ idxs, i < l.length) →
      List.Sublist (idxs.map (fun i => l.getD i d)) l := by
  intro l
  induction l with
  | nil =>
      intro idxs hp hb
      cases idxs with
      | nil => exact List.nil_sublist _
      | cons i is => exact absurd (hb i (List.mem_cons_self i is)) (by simp)
  | cons x t ih =>
      intro idxs hp hb
      cases idxs with
      | nil => simp
      | cons i is =>
          have htail : ∀ j ∈ is, 0 < j := by
            intro j hj
            have := (List.pairwise_cons.mp hp).1 j hj
            omega
          have hstep : ∀ js : List ℕ, (∀ j ∈ js, 0 < j) → js.Pairwise (· < ·) →
              (∀ j ∈ js, j < (x :: t).length) →
              List.Sublist (js.map (fun j => (x :: t).getD j d)) t := by
            intro js hpos hjp hjb
            have hmapeq : js.map (fun j => (x :: t).getD j d)
                = (js.map (fun j => j - 1)).map (fun j => t.getD j d) := by
              rw [List.map_map]
              refine List.map_congr_left ?_
              intro j hj
              obtain ⟨j', rfl⟩ :=
                Nat.exists_eq_succ_of_ne_zero (Nat.pos_iff_ne_zero.mp (hpos j hj))
              simp [Function.comp, List.getD_eq_getElem?_getD]
            rw [hmapeq]
            refine ih _ ?_ ?_
            · rw [List.pairwise_map]
              refine List.Pairwise.imp_of_mem ?_ hjp
              intro a b ha _ hab
              have := hpos a ha
              omega
            · intro j hj
              obtain ⟨j', hj', rfl⟩ := List.mem_map.mp hj
              have h1 := hjb j' hj'
              have h2 := hpos j' hj'
              simp only [List.length_cons] at h1
              omega
          cases i with
          | zero =>
              have hrec := hstep is htail (List.pairwise_cons.mp hp).2
                (fun j hj => hb j (List.mem_cons_of_mem 0 hj))
              simpa using hrec.cons₂ x
          | succ k =>
              have hall : ∀ j ∈ (k + 1) :: is, 0 < j := by
                intro j hj
                rcases List.mem_cons.mp hj with rfl | hj
                · omega
                · exact htail j hj
              exact (hstep ((k + 1) :: is) hall hp hb).cons x

theorem summary_indices_lt (stop : List String) (n : ℕ) (text : String) :
    ∀ i ∈ summary_indices stop n text, i < (split_sentences text).length := by
  intro i hi
  unfold summary_indices at hi
  have h1 := (List.perm_insertionSort (· ≤ ·) _).mem_iff.mp hi
  have h2 := (List.take_sublist _ _).mem h1
  have h3 := (sortDescBy_perm _ _).mem_iff.mp h2
  exact List.mem_range.mp h3

theorem summary_indices_nodup (stop : List String) (n : ℕ) (text : String) :
    (summary_indices stop n text).Nodup := by
  unfold summary_indices
  rw [(List.perm_insertionSort (· ≤ ·) _).nodup_iff]
  refine List.Nodup.sublist (List.take_sublist _ _) ?_
  rw [(sortDescBy_perm _ _).nodup_iff]
  exact List.nodup_range _

theorem summary_indices_sorted (stop : List String) (n : ℕ) (text : String) :
    (summary_indices stop n text).Pairwise (· < ·) := by
  have hs : (summary_indices stop n text).Pairwise (· ≤ ·) :=
    List.sorted_insertionSort (· ≤ ·) _
  have hn : (summary_indices stop n text).Pairwise (· ≠ ·) :=
    summary_indices_nodup stop n text
  exact (hs.and hn).imp (fun h => lt_of_le_of_ne h.1 h.2)

/-- C6: the sentences the summarizer selects form a sublist of the sentence
split of the source text — they appear in the output in original order, never
reordered by score — and the non-short-circuit output is exactly those
sentences joined by single spaces. -/
theorem generate_summary_order_preserved (stop : List String) (n : ℕ) (text : String) :
    List.Sublist (summary_sentences stop n text) (split_sentences text)
    ∧ (split_sentences text ≠ [] → ¬(split_sentences text).length ≤ n →
        generate_summary stop n text
          = String.intercalate " " (summary_sentences stop n text)) := by
  constructor
  · exact map_getD_sublist "" (split_sentences text) (summary_indices stop n text)
      (summary_indices_sorted stop n text) (summary_indices_lt stop n text)
  · intro h1 h2
    rw [generate_summary, if_neg h1, if_neg h2]

/-- Witness for C6 at a three-sentence text summarized to one sentence. -/
theorem generate_summary_order_preserved_witness :
    List.Sublist (summary_sentences [] 1 "Aa bb. Cc dd. Ee ff.")
      (split_sentences "Aa bb. Cc dd. Ee ff.")
    ∧ generate_summary [] 1 "Aa bb. Cc dd. Ee ff."
        = String.intercalate " " (summary_sentences [] 1 "Aa bb. Cc dd. Ee ff.") :=
  ⟨(generate_summary_order_preserved [] 1 "Aa bb. Cc dd. Ee ff.").1,
    (generate_summary_order_preserved [] 1 "Aa bb. Cc dd. Ee ff.").2
      (by decide) (by decide)⟩

/-- C8: the newsletter selection keeps exactly articles with a relevance
entry for the reader, its output length respects the reader's limit, the
output is sorted by the reader's relevance descending, and it is the
truncation of a stable sort: a permutation of the enumerated filtered list
that is sorted by relevance descending with the original position as the
tie-break for equal scores. -/
theorem select_articles_spec (user : User) (articles : List Article) :
    (∀ a ∈ select_articles user articles, has_relevance_for a user.id = true)
    ∧ (select_articles user articles).length ≤ user.max_articles_per_newsletter
    ∧ (select_articles user articles).Pairwise
        (fun a b => relevance_for b user.id ≤ relevance_for a user.id)
    ∧ List.Perm
        (sortDescByEnum (fun a => relevance_for a user.id)
          (articles.filter (fun a => has_relevance_for a user.id)))
        ((articles.filter (fun a => has_relevance_for a user.id)).enum)
    ∧ (sortDescByEnum (fun a => relevance_for a user.id)
          (articles.filter (fun a => has_relevance_for a user.id))).Pairwise
        (descRel (fun a => relevance_for a user.id))
    ∧ select_articles user articles
        = ((sortDescByEnum (fun a => relevance_for a user.id)
            (articles.filter (fun a => has_relevance_for a user.id))).map
              Prod.snd).take user.max_articles_per_newsletter := by
  refine ⟨?_, ?_, ?_, sortDescByEnum_perm _ _, sortDescByEnum_pairwise _ _, rfl⟩
  · intro a ha
    have h1 : a ∈ sortDescBy (fun a => relevance_for a user.id)
        (articles.filter (fun a => has_relevance_for a user.id)) :=
      (List.take_sublist _ _).mem ha
    have h2 : a ∈ articles.filter (fun a => has_relevance_for a user.id) :=
      (sortDescBy_perm _ _).mem_iff.mp h1
    exact (List.mem_filter.mp h2).2
  · rw [select_articles, List.length_take]
    exact min_le_left _ _
  · exact List.Pairwise.sublist (List.take_sublist _ _) (sortDescBy_pairwise _ _)

theorem dictInsert_idem (m : List (String × ℚ)) (k : String) (v : ℚ) :
    dictInsert (dictInsert m k v) k v = dictInsert m k v := by
  induction m with
  | nil => simp [dictInsert]
  | cons p t ih =>
      obtain ⟨k', v'⟩ := p
      by_cases h : k' = k
      · simp [dictInsert, h]
      · simp [dictInsert, h, ih]

/-- C9: processing an article a second time (keywords, category, sentiment,
summary recomputed from the unmodified content) and re-scoring it for the
same reader (same keywords, source, and category) yields the identical
article: the derived fields repeat and the relevance map entry is rewritten
with the same value. -/
theorem pipeline_idempotent (stop : List String) (lemmatize : String → String)
    (min_length max_count summarize_length : ℕ) (u : User) (a : Article) :
    score_article_for_user u (process_article stop lemmatize min_length max_count
        summarize_length (score_article_for_user u (process_article stop lemmatize
          min_length max_count summarize_length a)))
      = score_article_for_user u (process_article stop lemmatize min_length
          max_count summarize_length a) := by
  simp [score_article_for_user, process_article, add_user_relevance, dictInsert_idem]

theorem dv_dc_lt (m : ℕ) (h : m < 10) : dv (dc m) = m := by
  revert h
  revert m
  decide

theorem dc_isDigit (m : ℕ) (h : m < 10) : (dc m).isDigit = true := by
  revert h
  revert m
  decide

theorem dv_dc_mod (n : ℕ) : dv (dc (n % 10)) = n % 10 :=
  dv_dc_lt (n % 10) (Nat.mod_lt n (by norm_num))

theorem dc_mod_isDigit (n : ℕ) : (dc (n % 10)).isDigit = true :=
  dc_isDigit (n % 10) (Nat.mod_lt n (by norm_num))

theorem parse_iso_format (d : Datetime)
    (hy : d.year < 10000) (hmo : d.month < 100) (hd : d.day < 100)
    (hh : d.hour < 100) (hmi : d.minute < 100) (hs : d.second < 100)
    (hu : d.microsecond < 1000000) :
    parse_iso (iso_format d) = some d := by
  obtain ⟨y, mo, da, ho, mi, se, u⟩ := d
  simp only at hy hmo hd hh hmi hs hu
  by_cases hu0 : u = 0
  · subst hu0
    show parse_iso (String.mk (iso_chars ⟨y, mo, da, ho, mi, se, 0⟩)) = _
    rw [iso_chars]
    simp only [eq_self_iff_true, if_true, List.cons_append, List.nil_append,
      List.append_nil]
    simp only [parse_iso]
    rw [if_pos (by simp [dc_mod_isDigit])]
    simp only [Option.some.injEq, Datetime.mk.injEq, dv4, dv2, dv_dc_mod, and_true]
    omega
  · show parse_iso (String.mk (iso_chars ⟨y, mo, da, ho, mi, se, u⟩)) = _
    rw [iso_chars]
    simp only [if_neg hu0, List.cons_append, List.nil_append]
    simp only [parse_iso]
    rw [if_pos (by simp [dc_mod_isDigit])]
    simp only [Option.some.injEq, Datetime.mk.injEq, dv4, dv2, dv6, dv_dc_mod]
    omega

/-- C10: dictionary serialization of an article round-trips:
`Article.from_dict (Article.to_dict a)` recovers `a` field for field,
including the publication timestamp parsed back from its ISO string, for
every article whose timestamp fields are in `datetime`'s ranges. -/
theorem article_dict_roundtrip (a : Article)
    (hy : a.published_date.year < 10000) (hmo : a.published_date.month < 100)
    (hd : a.published_date.day < 100) (hh : a.published_date.hour < 100)
    (hmi : a.published_date.minute < 100) (hs : a.published_date.second < 100)
    (hu : a.published_date.microsecond < 1000000) :
    from_dict (to_dict a) = some a := by
  simp only [from_dict, to_dict]
  rw [parse_iso_format a.published_date hy hmo hd hh hmi hs hu]
  simp

/-- Witness for C10 at a concrete article. -/
theorem article_dict_roundtrip_witness :
    from_dict (to_dict
      { id := "a1", title := "T", url := "u", source := "S",
        published_date := ⟨2024, 5, 3, 10, 20, 30, 0⟩, content := "c",
        category := "technology", author := some "A", image_url := none,
        keywords := ["ai"], summary := some "s", sentiment_score := 1 / 2,
        relevance_scores := [("u1", 3 / 4)] })
    = some
      { id := "a1", title := "T", url := "u", source := "S",
        published_date := ⟨2024, 5, 3, 10, 20, 30, 0⟩, content := "c",
        category := "technology", author := some "A", image_url := none,
        keywords := ["ai"], summary := some "s", sentiment_score := 1 / 2,
        relevance_scores := [("u1", 3 / 4)] } :=
  article_dict_roundtrip _ (by decide) (by decide) (by decide) (by decide)
    (by decide) (by decide) (by decide)
